import Mathlib

/-!
Verification of the Life_tracker web client (frontend view components).

Shallow embedding conventions:
* JavaScript numbers holding integral progress values / counters are `Int`
  (they are produced by integer-stepped sliders and sums thereof); the one
  place where fractional arithmetic is rendered (progress-bar percentage)
  is modelled over `ℚ`.
* `Math.round(x / d)` for a positive integer divisor `d` is `jsRoundDiv`:
  the floor of `x/d + 1/2`, i.e. round-half-up towards `+∞`, exactly the
  JavaScript semantics on these inputs.
* Calendar days handled by `date-fns` (`subWeeks`, `startOfWeek`,
  `endOfWeek`, `eachDayOfInterval`, and the `yyyy-MM-dd` key produced by
  `format`) are modelled as integer day indices (`Int`), with day index 0
  being a Thursday as in the Unix epoch; `format day` is injective on
  calendar days, so comparing the `yyyy-MM-dd` strings is comparing the
  day indices. Journal dates, which are only ever used as opaque keys,
  stay `String`.
* React state setters become explicit state records; `axios` calls become
  an emitted `ApiRequest` list plus an explicitly passed outcome
  (success/failure, and the payload on success); `toast` calls become an
  emitted `Toast` list.
-/

/-- One record of the `progress-entries` API: `{ task_id, date, progress_value }`.
The date is a calendar-day index (see the header comment). -/
structure ProgressEntry where
  task_id : String
  date : Int
  progress_value : Int
deriving Repr, DecidableEq

/-- One record of the `life-tasks` API: `{ id, name, description, category, target_value }`. -/
structure LifeTask where
  id : String
  name : String
  description : String
  category : String
  target_value : Int
deriving Repr, DecidableEq

/-- One record of the `journal-entries` API: `{ id, date, content }`. -/
structure JournalEntry where
  id : String
  date : String
  content : String
deriving Repr, DecidableEq

/-- The REST calls the components issue (base path `/api`). -/
inductive ApiRequest where
  | getEntries
  | getEntryByDate (date : String)
  | postEntry (date : String) (content : String)
  | putEntry (date : String) (content : String)
  | deleteEntry (date : String)
  | getProgressEntries (taskId : String)
  | postProgress (taskId : String) (date : Int) (value : Int)
deriving Repr, DecidableEq

/-- `toast.success` / `toast.error` notifications. -/
inductive Toast where
  | success (msg : String)
  | error (msg : String)
deriving Repr, DecidableEq

/-- JavaScript `Math.round (n / d)` for integers `n` and a positive divisor `d`:
round half up (towards `+∞`), i.e. `⌊n/d + 1/2⌋ = ⌊(2n+d)/(2d)⌋`. -/
def jsRoundDiv (n d : Int) : Int :=
  Int.fdiv (2 * n + d) (2 * d)

/-- JavaScript `Math.max(...xs)` over a list produced by a spread; the code
only ever applies it to a non-empty list (for `[]` JS would give `-Infinity`,
which we arbitrarily map to `0`: that branch is unreachable below). -/
def mathMax : List Int → Int
  | [] => 0
  | x :: xs => xs.foldl max x

/- ----------------------------------------------------------------
WeeklyProgress.jsx
---------------------------------------------------------------- -/

/-- One element of the `weeklyData` array built by
`WeeklyProgress.fetchWeeklyProgress`: `{ day, date, progress, percentage,
fullDate }`. The `day`/`fullDate` fields are display-only `format` strings
derived from `date` and carry no extra information, so they are omitted. -/
structure WeekDay where
  date : Int
  progress : Int
  percentage : Int
deriving Repr, DecidableEq

/-- Result record of `WeeklyProgress.getWeekStats`. -/
structure WeekStats where
  total : Int
  average : Int
  best : Int
  daysActive : Nat
deriving Repr, DecidableEq

/-- `WeeklyProgress.getWeekStats` (WeeklyProgress.jsx lines 103-112):
over the current `weeklyData`, returns zeros when it is empty and otherwise
`total` = reduce of `day.progress`, `daysActive` = count of days with
positive progress, `average` = `Math.round(total / 7)` when some day is
active else `0`, `best` = `Math.max` over the daily values. -/
def getWeekStats (weeklyData : List WeekDay) : WeekStats :=
  if weeklyData.isEmpty then ⟨0, 0, 0, 0⟩
  else
    let total := weeklyData.foldl (fun sum day => sum + day.progress) 0
    let daysActive := (weeklyData.filter (fun day => decide (day.progress > 0))).length
    let average := if daysActive > 0 then jsRoundDiv total 7 else 0
    let best := mathMax (weeklyData.map (·.progress))
    ⟨total, average, best, daysActive⟩

/-- The seven-day example from the specification: daily values
`[10, 0, 20, 0, 0, 5, 0]` (dates are the days of some week). -/
def exampleWeek : List WeekDay :=
  [⟨0, 10, 10⟩, ⟨1, 0, 0⟩, ⟨2, 20, 20⟩, ⟨3, 0, 0⟩, ⟨4, 0, 0⟩, ⟨5, 5, 5⟩, ⟨6, 0, 0⟩]

/-- Folding `+ day.progress` from `init` is `init` plus the sum of the values. -/
theorem foldl_add_progress (l : List WeekDay) :
    ∀ init : Int, l.foldl (fun sum day => sum + day.progress) init
      = init + (l.map (·.progress)).sum := by
  induction l with
  | nil => intro init; simp
  | cons d l ih =>
    intro init
    simp only [List.foldl_cons, List.map_cons, List.sum_cons, ih]
    ring

/-- `mathMax` of a non-empty list is an element of the list. -/
theorem mathMax_mem : ∀ (x : Int) (xs : List Int), mathMax (x :: xs) ∈ x :: xs := by
  have key : ∀ (xs : List Int) (a : Int), xs.foldl max a = a ∨ xs.foldl max a ∈ xs := by
    intro xs
    induction xs with
    | nil => intro a; exact Or.inl rfl
    | cons y ys ih =>
      intro a
      rcases ih (max a y) with h | h
      · rcases max_choice a y with hm | hm
        · exact Or.inl (by rw [List.foldl_cons, h, hm])
        · exact Or.inr (by rw [List.foldl_cons, h, hm]; exact List.mem_cons_self _ _)
      · exact Or.inr (List.mem_cons_of_mem _ h)
  intro x xs
  rcases key xs x with h | h
  · exact (by rw [mathMax, h]; exact List.mem_cons_self _ _)
  · exact (by rw [mathMax]; exact List.mem_cons_of_mem _ h)

/-- Every element of a non-empty list is at most its `mathMax`. -/
theorem le_mathMax : ∀ (x : Int) (xs : List Int) (v : Int), v ∈ x :: xs → v ≤ mathMax (x :: xs) := by
  have key : ∀ (xs : List Int) (a : Int),
      a ≤ xs.foldl max a ∧ ∀ v ∈ xs, v ≤ xs.foldl max a := by
    intro xs
    induction xs with
    | nil => intro a; exact ⟨le_refl a, by intro v hv; cases hv⟩
    | cons y ys ih =>
      intro a
      obtain ⟨h1, h2⟩ := ih (max a y)
      refine ⟨le_trans (le_max_left a y) h1, ?_⟩
      intro v hv
      rcases List.mem_cons.mp hv with rfl | hv
      · exact le_trans (le_max_right a v) h1
      · exact h2 v hv
  intro x xs v hv
  rcases List.mem_cons.mp hv with rfl | hv
  · exact (key xs v).1
  · exact (key xs x).2 v hv

/-- C1. For every 7-day list of daily (non-negative) progress values,
`getWeekStats` returns `total` = the sum of the 7 values, `average` =
`total/7` rounded to the nearest integer — the divisor is 7 regardless of
how many days are zero or active, and the division is exact whenever
`7 ∣ total` — `best` = the maximum single-day value (an attained upper
bound), and `daysActive` = the count of days with value > 0; in particular
on the values `[10,0,20,0,0,5,0]` it returns `total = 35`, `average = 5`,
`best = 20`, `daysActive = 3`. -/
theorem weekStats_correct (ws : List WeekDay)
    (hlen : ws.length = 7) (hpos : ∀ d ∈ ws, 0 ≤ d.progress) :
    (getWeekStats ws).total = (ws.map (·.progress)).sum ∧
    (getWeekStats ws).average = jsRoundDiv (ws.map (·.progress)).sum 7 ∧
    ((ws.map (·.progress)).sum % 7 = 0 →
      (getWeekStats ws).average = (ws.map (·.progress)).sum / 7) ∧
    (getWeekStats ws).best ∈ ws.map (·.progress) ∧
    (∀ v ∈ ws.map (·.progress), v ≤ (getWeekStats ws).best) ∧
    (getWeekStats ws).daysActive
      = (ws.filter (fun day => decide (day.progress > 0))).length ∧
    getWeekStats exampleWeek = ⟨35, 5, 20, 3⟩ := by
  have hne : ws.isEmpty = false := by
    cases ws with
    | nil => simp at hlen
    | cons d l => rfl
  obtain ⟨d, l, rfl⟩ : ∃ d l, ws = d :: l := by
    cases ws with
    | nil => simp at hlen
    | cons d l => exact ⟨d, l, rfl⟩
  have hsum : ((d :: l).map (·.progress)).sum
      = (d :: l).foldl (fun sum day => sum + day.progress) 0 := by
    rw [foldl_add_progress]; ring
  constructor
  · simp only [getWeekStats, hne, Bool.false_eq_true, if_false]
    exact hsum.symm
  refine ⟨?_, ?_, ?_, ?_, ?_, ?_⟩
  · -- average: the `daysActive > 0` guard collapses since with non-negative
    -- values an inactive week has total 0, and round(0/7) = 0.
    simp only [getWeekStats, hne, Bool.false_eq_true, if_false]
    by_cases hact : ((d :: l).filter (fun day => decide (day.progress > 0))).length > 0
    · simp only [hact, if_true, hsum]
    · have hall : ∀ x ∈ d :: l, x.progress = 0 := by
        intro x hx
        have hnotpos : ¬ x.progress > 0 := by
          intro hgt
          apply hact
          have : x ∈ (d :: l).filter (fun day => decide (day.progress > 0)) :=
            List.mem_filter.mpr ⟨hx, by simpa using hgt⟩
          exact List.length_pos.mpr (List.ne_nil_of_mem this)
        exact le_antisymm (not_lt.mp hnotpos) (hpos x hx)
      have hzero : ((d :: l).map (·.progress)).sum = 0 := by
        apply List.sum_eq_zero
        intro v hv
        obtain ⟨x, hx, rfl⟩ := List.mem_map.mp hv
        exact hall x hx
      simp only [hact, if_false, hsum.symm, hzero]
      rfl
  · intro hdvd
    simp only [getWeekStats, hne, Bool.false_eq_true, if_false]
    by_cases hact : ((d :: l).filter (fun day => decide (day.progress > 0))).length > 0
    · simp only [hact, if_true, hsum.symm]
      have h7 : (7 : Int) ∣ ((d :: l).map (·.progress)).sum := Int.dvd_of_emod_eq_zero hdvd
      obtain ⟨k, hk⟩ := h7
      rw [hk]
      rw [jsRoundDiv]
      have h1 : 2 * (7 * k) + 7 = 14 * k + 7 := by ring
      have h2 : (7 : Int) * k / 7 = k := by
        rw [Int.mul_ediv_cancel_left _ (by norm_num)]
      rw [h1, h2]
      rw [Int.fdiv_eq_ediv _ (by positivity)]
      omega
    · have hall : ∀ x ∈ d :: l, x.progress = 0 := by
        intro x hx
        have hnotpos : ¬ x.progress > 0 := by
          intro hgt
          apply hact
          have : x ∈ (d :: l).filter (fun day => decide (day.progress > 0)) :=
            List.mem_filter.mpr ⟨hx, by simpa using hgt⟩
          exact List.length_pos.mpr (List.ne_nil_of_mem this)
        exact le_antisymm (not_lt.mp hnotpos) (hpos x hx)
      have hzero : ((d :: l).map (·.progress)).sum = 0 := by
        apply List.sum_eq_zero
        intro v hv
        obtain ⟨x, hx, rfl⟩ := List.mem_map.mp hv
        exact hall x hx
      simp only [hact, if_false, hzero]
      norm_num
  · simp only [getWeekStats, hne, Bool.false_eq_true, if_false, List.map_cons]
    exact mathMax_mem d.progress (l.map (·.progress))
  · simp only [getWeekStats, hne, Bool.false_eq_true, if_false, List.map_cons]
    intro v hv
    exact le_mathMax d.progress (l.map (·.progress)) v hv
  · simp only [getWeekStats, hne, Bool.false_eq_true, if_false]
  · decide

/-- Witness for C1 at the specification's own example week. -/
theorem weekStats_correct_witness :
    exampleWeek.length = 7 ∧ (∀ d ∈ exampleWeek, 0 ≤ d.progress) ∧
    (getWeekStats exampleWeek).total = (exampleWeek.map (·.progress)).sum ∧
    getWeekStats exampleWeek = ⟨35, 5, 20, 3⟩ := by
  refine ⟨by decide, by decide, ?_, ?_⟩
  · exact (weekStats_correct exampleWeek (by decide) (by decide)).1
  · exact (weekStats_correct exampleWeek (by decide) (by decide)).2.2.2.2.2.2

/-- JavaScript `Date.prototype.getDay` on a calendar-day index: 0 = Sunday …
6 = Saturday. Day index 0 (1970-01-01) is a Thursday, hence the offset 4. -/
def dayOfWeek (d : Int) : Int := (d + 4) % 7

/-- `date-fns` `startOfWeek(d, { weekStartsOn: 1 })`: the Monday at or before `d`. -/
def startOfWeekMonday (d : Int) : Int := d - (dayOfWeek d - 1) % 7

/-- `date-fns` `endOfWeek(d, { weekStartsOn: 1 })` (at day granularity):
the Sunday at or after `d`, i.e. six days after the Monday of `d`. -/
def endOfWeekMonday (d : Int) : Int := startOfWeekMonday d + 6

/-- `date-fns` `subWeeks(d, w)`. -/
def subWeeks (d : Int) (w : Nat) : Int := d - 7 * w

/-- `date-fns` `eachDayOfInterval({ start, end })`: the calendar days from
`start` to `last` inclusive, in order. -/
def eachDayOfInterval (start last : Int) : List Int :=
  (List.range (last + 1 - start).toNat).map (fun (i : Nat) => start + (i : Int))

/-- `WeeklyProgress.fetchWeeklyProgress` (WeeklyProgress.jsx lines 45-89),
data part: given today's date, the selected week offset, the task list, the
selected task id and the fetched progress history for that task (`none`
models a failed request, after which `weeklyData` is left unchanged), it
returns the new `weeklyData`: the seven days of the Monday-start week
`selectedWeek` weeks back, each mapped to its recorded progress value (0 if
absent) and its rounded percentage of the task's target value
(`task?.target_value || 100`). The early `return` on an empty
`selectedTask` and the catch branch leave the previous `weeklyData`. -/
def fetchWeeklyProgress (today : Int) (selectedWeek : Nat) (tasks : List LifeTask)
    (selectedTask : String) (fetched : Option (List ProgressEntry))
    (weeklyData : List WeekDay) : List WeekDay :=
  if selectedTask == "" then weeklyData
  else
    match fetched with
    | none => weeklyData
    | some progressEntries =>
      let targetWeek := subWeeks today selectedWeek
      let weekStart := startOfWeekMonday targetWeek
      let weekEnd := endOfWeekMonday targetWeek
      let weekDays := eachDayOfInterval weekStart weekEnd
      let targetValue :=
        match tasks.find? (fun t => t.id == selectedTask) with
        | some t => if t.target_value == 0 then 100 else t.target_value
        | none => 100
      weekDays.map (fun day =>
        match progressEntries.find? (fun e => e.date == day) with
        | some entry =>
          ⟨day, entry.progress_value, jsRoundDiv (100 * entry.progress_value) targetValue⟩
        | none => ⟨day, 0, 0⟩)

/-- The start of a Monday-based week is indeed a Monday (`getDay = 1`). -/
theorem startOfWeekMonday_isMonday (d : Int) : dayOfWeek (startOfWeekMonday d) = 1 := by
  simp only [dayOfWeek, startOfWeekMonday]
  omega

/-- A date lies between the Monday and the Sunday of its week. -/
theorem startOfWeekMonday_le (d : Int) :
    startOfWeekMonday d ≤ d ∧ d ≤ startOfWeekMonday d + 6 := by
  simp only [startOfWeekMonday, dayOfWeek]
  omega

/-- The end of a Monday-based week is a Sunday (`getDay = 0`). -/
theorem endOfWeekMonday_isSunday (d : Int) : dayOfWeek (endOfWeekMonday d) = 0 := by
  simp only [endOfWeekMonday, startOfWeekMonday, dayOfWeek]
  omega

/-- `eachDayOfInterval` enumerates `(last + 1 - start).toNat` days. -/
theorem eachDayOfInterval_length (a b : Int) :
    (eachDayOfInterval a b).length = (b + 1 - a).toNat := by
  rw [eachDayOfInterval, List.length_map, List.length_range]

/-- The `i`-th enumerated day is `start + i`. -/
theorem eachDayOfInterval_getElem (a b : Int) (i : Nat) (h : (i : Int) < b + 1 - a) :
    (eachDayOfInterval a b)[i]? = some (a + i) := by
  rw [eachDayOfInterval, List.getElem?_map, List.getElem?_range (by omega)]
  rfl

/-- C7. For every selected task (non-empty id) and week offset `w`, the
weekly-progress derivation computes the Monday-start/Sunday-end boundary of
the week `w` weeks before today (the start is a Monday, the end a Sunday,
and `today - 7w` lies between them), enumerates exactly those seven
calendar days in order, and maps the `i`-th day to the progress value
recorded for that date in the fetched history — 0 when no entry for
that date is present, and the found entry `progress_value` when one is (dates
being unique in the history). -/
theorem weeklyProgress_days (today : Int) (w : Nat) (tasks : List LifeTask)
    (sel : String) (es : List ProgressEntry) (prev : List WeekDay)
    (hsel : sel ≠ "") :
    let L := fetchWeeklyProgress today w tasks sel (some es) prev
    let weekStart := startOfWeekMonday (subWeeks today w)
    L.length = 7 ∧
    dayOfWeek weekStart = 1 ∧
    dayOfWeek (endOfWeekMonday (subWeeks today w)) = 0 ∧
    weekStart ≤ subWeeks today w ∧
    subWeeks today w ≤ endOfWeekMonday (subWeeks today w) ∧
    (∀ i : Nat, i < 7 → ∃ d : WeekDay, L[i]? = some d ∧
      d.date = weekStart + i ∧
      ((∀ e ∈ es, e.date ≠ weekStart + i) → d.progress = 0) ∧
      (∀ e ∈ es, e.date = weekStart + i → (es.map (·.date)).Nodup →
        d.progress = e.progress_value)) := by
  intro L weekStart
  have hself : (sel == "") = false := by
    simpa using hsel
  have hL : L = (eachDayOfInterval weekStart (weekStart + 6)).map
      (fun day =>
        match es.find? (fun e => e.date == day) with
        | some entry =>
          ⟨day, entry.progress_value,
            jsRoundDiv (100 * entry.progress_value)
              (match tasks.find? (fun t => t.id == sel) with
               | some t => if t.target_value == 0 then 100 else t.target_value
               | none => 100)⟩
        | none => ⟨day, 0, 0⟩) := by
    show fetchWeeklyProgress today w tasks sel (some es) prev = _
    rw [fetchWeeklyProgress, hself]
    rfl
  refine ⟨?_, startOfWeekMonday_isMonday _, endOfWeekMonday_isSunday _,
    (startOfWeekMonday_le _).1, (startOfWeekMonday_le _).2, ?_⟩
  · rw [hL, List.length_map, eachDayOfInterval_length]
    omega
  · intro i hi
    have hday : (eachDayOfInterval weekStart (weekStart + 6))[i]? = some (weekStart + i) :=
      eachDayOfInterval_getElem weekStart (weekStart + 6) i (by omega)
    rw [hL]
    refine ⟨_, by rw [List.getElem?_map, hday]; rfl, ?_, ?_, ?_⟩
    · cases hfind : es.find? (fun e => e.date == weekStart + (i : Int)) with
      | none => simp only [hfind]
      | some entry => simp only [hfind]
    · intro habsent
      have hfind : es.find? (fun e => e.date == weekStart + (i : Int)) = none := by
        rw [List.find?_eq_none]
        intro e he
        simpa using habsent e he
      simp only [hfind]
    · intro e he hedate hnodup
      cases hfind : es.find? (fun e2 => e2.date == weekStart + (i : Int)) with
      | none =>
        exfalso
        have := List.find?_eq_none.mp hfind e he
        simp [hedate] at this
      | some entry =>
        have hmem : entry ∈ es := List.mem_of_find?_eq_some hfind
        have hpe := List.find?_some hfind
        have hdateeq : entry.date = e.date := by
          have h1 : entry.date = weekStart + (i : Int) := by simpa using hpe
          rw [h1, hedate]
        have hee : entry = e :=
          List.inj_on_of_nodup_map hnodup hmem he hdateeq
        simp only [hfind, hee]

/-- Witness for C7 at a concrete instance: today = day 3 (a Sunday), the
current week, one entry on day 0 with value 11. -/
theorem weeklyProgress_days_witness :
    ("t1" : String) ≠ "" ∧
    (let L := fetchWeeklyProgress 3 0 [] "t1" (some [⟨"t1", 0, 11⟩]) []
     let weekStart := startOfWeekMonday (subWeeks 3 0)
     L.length = 7 ∧
     dayOfWeek weekStart = 1 ∧
     dayOfWeek (endOfWeekMonday (subWeeks 3 0)) = 0 ∧
     weekStart ≤ subWeeks 3 0 ∧
     subWeeks 3 0 ≤ endOfWeekMonday (subWeeks 3 0) ∧
     (∀ i : Nat, i < 7 → ∃ d : WeekDay, L[i]? = some d ∧
       d.date = weekStart + i ∧
       ((∀ e ∈ [(⟨"t1", 0, 11⟩ : ProgressEntry)], e.date ≠ weekStart + i) → d.progress = 0) ∧
       (∀ e ∈ [(⟨"t1", 0, 11⟩ : ProgressEntry)], e.date = weekStart + i →
         (([(⟨"t1", 0, 11⟩ : ProgressEntry)]).map (·.date)).Nodup →
         d.progress = e.progress_value))) :=
  ⟨by decide, weeklyProgress_days 3 0 [] "t1" [⟨"t1", 0, 11⟩] [] (by decide)⟩

/-- C9. The weekly stats derivation is total: on the empty `weeklyData` it
returns all zeros (the `Math.max` of an empty spread — which would be
`-Infinity` in JS — is guarded away by the emptiness check), and for
non-negative inputs every component is a well-defined non-negative number,
with `best` attained by some day and `daysActive` at most the number of
days. -/
theorem weekStats_safe :
    getWeekStats [] = ⟨0, 0, 0, 0⟩ ∧
    ∀ ws : List WeekDay, (∀ d ∈ ws, 0 ≤ d.progress) →
      0 ≤ (getWeekStats ws).total ∧
      0 ≤ (getWeekStats ws).average ∧
      0 ≤ (getWeekStats ws).best ∧
      (getWeekStats ws).daysActive ≤ ws.length ∧
      (ws ≠ [] → (getWeekStats ws).best ∈ ws.map (·.progress)) := by
  refine ⟨rfl, ?_⟩
  intro ws hpos
  cases ws with
  | nil =>
    refine ⟨le_refl _, le_refl _, le_refl _, le_refl _, ?_⟩
    intro h
    exact absurd rfl h
  | cons d l =>
    have hform : getWeekStats (d :: l) =
        ⟨(d :: l).foldl (fun sum day => sum + day.progress) 0,
         if ((d :: l).filter (fun day => decide (day.progress > 0))).length > 0
           then jsRoundDiv ((d :: l).foldl (fun sum day => sum + day.progress) 0) 7
           else 0,
         mathMax ((d :: l).map (·.progress)),
         ((d :: l).filter (fun day => decide (day.progress > 0))).length⟩ := rfl
    have hsum0 : 0 ≤ (d :: l).foldl (fun sum day => sum + day.progress) 0 := by
      rw [foldl_add_progress]
      have : 0 ≤ ((d :: l).map (·.progress)).sum := by
        apply List.sum_nonneg
        intro v hv
        obtain ⟨x, hx, rfl⟩ := List.mem_map.mp hv
        exact hpos x hx
      omega
    refine ⟨?_, ?_, ?_, ?_, ?_⟩
    · rw [hform]
      exact hsum0
    · rw [hform]
      by_cases hact : ((d :: l).filter (fun day => decide (day.progress > 0))).length > 0
      · simp only [hact, if_true]
        rw [jsRoundDiv, Int.fdiv_eq_ediv _ (by positivity)]
        omega
      · simp only [hact, if_false]
        exact le_refl 0
    · rw [hform]
      have hmem := mathMax_mem d.progress (l.map (·.progress))
      rw [← List.map_cons] at hmem
      obtain ⟨x, hx, hval⟩ := List.mem_map.mp hmem
      simp only
      rw [← hval]
      exact hpos x hx
    · rw [hform]
      simp only
      exact List.length_filter_le _ _
    · intro hne
      rw [hform]
      simp only [List.map_cons]
      exact mathMax_mem d.progress (l.map (·.progress))

/-- Witness for C9 at the example week. -/
theorem weekStats_safe_witness :
    (∀ d ∈ exampleWeek, 0 ≤ d.progress) ∧
    (0 ≤ (getWeekStats exampleWeek).total ∧
     0 ≤ (getWeekStats exampleWeek).average ∧
     0 ≤ (getWeekStats exampleWeek).best ∧
     (getWeekStats exampleWeek).daysActive ≤ exampleWeek.length ∧
     (exampleWeek ≠ [] → (getWeekStats exampleWeek).best ∈ exampleWeek.map (·.progress))) :=
  ⟨by decide, weekStats_safe.2 exampleWeek (by decide)⟩

/- ----------------------------------------------------------------
LifeTracker (second component in Journal.jsx's file pack)
---------------------------------------------------------------- -/

/-- Reading `obj[key]` on the plain JS object used for `todayProgress`,
modelled as an insertion-ordered association list. -/
def objGet (m : List (String × Int)) (k : String) : Option Int :=
  (m.find? (fun p => p.1 == k)).map (·.2)

/-- `{ ...obj, [key]: v }`: overwrite the key in place if present
(keeping insertion order), else append it. -/
def objSet (m : List (String × Int)) (k : String) (v : Int) : List (String × Int) :=
  if m.any (fun p => p.1 == k) then
    m.map (fun p => if p.1 == k then (k, v) else p)
  else m ++ [(k, v)]

/-- Outcome record for `LifeTracker.updateProgress`. -/
structure ProgressUpdate where
  todayProgress : List (String × Int)
  requests : List ApiRequest
  toasts : List Toast
deriving Repr, DecidableEq

/-- `LifeTracker.updateProgress` (Journal.jsx pack, lines 456-471): `await`s
the upsert POST of today's value first and only then writes the local
`todayProgress` map (`setTodayProgress(prev => ({ ...prev, [taskId]:
progressValue }))`); the `catch` branch only reports the error, leaving the
map untouched. -/
def updateProgress (todayProgress : List (String × Int)) (taskId : String)
    (progressValue : Int) (today : Int) (postOk : Bool) : ProgressUpdate :=
  if postOk then
    ⟨objSet todayProgress taskId progressValue,
     [ApiRequest.postProgress taskId today progressValue],
     [Toast.success "Progress updated"]⟩
  else
    ⟨todayProgress,
     [ApiRequest.postProgress taskId today progressValue],
     [Toast.error "Failed to update progress"]⟩

/-- `find?` after the in-place overwrite of key `k`: looking up a different
key is unaffected. -/
theorem find_overwrite_ne (m : List (String × Int)) (k k2 : String) (v : Int)
    (hne : k2 ≠ k) :
    (m.map (fun p => if p.1 == k then (k, v) else p)).find? (fun p => p.1 == k2)
      = m.find? (fun p => p.1 == k2) := by
  induction m with
  | nil => rfl
  | cons p m ih =>
    rw [List.map_cons]
    by_cases hp : (p.1 == k) = true
    · have hp1 : p.1 = k := by simpa using hp
      rw [if_pos hp,
        List.find?_cons_of_neg _ (by simp; exact fun h => hne h.symm),
        List.find?_cons_of_neg _ (by simp [hp1]; exact fun h => hne h.symm)]
      exact ih
    · rw [if_neg hp]
      by_cases hp2 : (p.1 == k2) = true
      · have h1 : List.find? (fun q => q.1 == k2)
            (p :: List.map (fun q => if q.1 == k then (k, v) else q) m) = some p :=
          List.find?_cons_of_pos _ hp2
        have h2 : List.find? (fun q => q.1 == k2) (p :: m) = some p :=
          List.find?_cons_of_pos _ hp2
        rw [h1, h2]
      · rw [List.find?_cons_of_neg _ (by simpa using hp2),
          List.find?_cons_of_neg _ (by simpa using hp2)]
        exact ih

/-- `find?` after the in-place overwrite of key `k`: looking up `k` itself
yields the overwritten pair, provided `k` occurred. -/
theorem find_overwrite_self (m : List (String × Int)) (k : String) (v : Int)
    (hany : m.any (fun p => p.1 == k) = true) :
    (m.map (fun p => if p.1 == k then (k, v) else p)).find? (fun p => p.1 == k)
      = some (k, v) := by
  induction m with
  | nil => simp at hany
  | cons p m ih =>
    rw [List.map_cons]
    by_cases hp : (p.1 == k) = true
    · rw [if_pos hp, List.find?_cons_of_pos _ (by simp)]
    · rw [if_neg hp, List.find?_cons_of_neg _ (by simpa using hp)]
      apply ih
      rcases List.any_eq_true.mp hany with ⟨q, hq, hqk⟩
      rcases List.mem_cons.mp hq with rfl | hq2
      · exact absurd hqk (by simpa using hp)
      · exact List.any_eq_true.mpr ⟨q, hq2, hqk⟩

/-- Setting a key then reading it back yields the new value. -/
theorem objGet_objSet_self (m : List (String × Int)) (k : String) (v : Int) :
    objGet (objSet m k v) k = some v := by
  unfold objSet
  by_cases h : m.any (fun p => p.1 == k) = true
  · rw [if_pos h, objGet, find_overwrite_self m k v h]
    rfl
  · rw [if_neg h, objGet, List.find?_append]
    have hnone : m.find? (fun p => p.1 == k) = none := by
      rw [List.find?_eq_none]
      intro p hpm hcontra
      exact h (List.any_eq_true.mpr ⟨p, hpm, hcontra⟩)
    rw [hnone]
    simp

/-- Setting one key leaves reads of any other key unchanged. -/
theorem objGet_objSet_ne (m : List (String × Int)) (k k2 : String) (v : Int)
    (hne : k2 ≠ k) :
    objGet (objSet m k v) k2 = objGet m k2 := by
  unfold objSet
  by_cases h : m.any (fun p => p.1 == k) = true
  · rw [if_pos h, objGet, find_overwrite_ne m k k2 v hne]
    rfl
  · rw [if_neg h, objGet, List.find?_append]
    have hlast : ([(k, v)] : List (String × Int)).find? (fun p => p.1 == k2) = none := by
      rw [List.find?_eq_none]
      intro p hp
      rcases List.mem_singleton.mp hp with rfl
      simp
      exact fun hc => hne hc.symm
    rw [hlast, Option.or_none]
    rfl

/-- C2 counterexample. The claim says the slider handler optimistically
updates the local map before persisting, so after a failed persist the map
would still hold the new value. Concretely with prior map `{t1: 3}`, a drag
to 5 whose POST fails: the claim predicts the map reads 5, but the code
only writes the map after the `await`ed POST succeeds, so it still reads 3. -/
theorem updateProgress_counterexample :
    objGet (updateProgress [("t1", 3)] "t1" 5 0 false).todayProgress "t1" = some 3 ∧
    ¬ objGet (updateProgress [("t1", 3)] "t1" 5 0 false).todayProgress "t1" = some 5 := by
  decide

/-- C2 amended. A slider drag issues the persist POST first and applies the
local task-id→value update only after the POST succeeds; when the persist
call fails, the failure is reported (error toast) and the local map is left
unchanged, still holding its prior value — there is no optimistic update to
roll back. -/
theorem updateProgress_persist_first (m : List (String × Int)) (taskId : String)
    (v : Int) (today : Int) :
    (updateProgress m taskId v today true).todayProgress = objSet m taskId v ∧
    objGet (updateProgress m taskId v today true).todayProgress taskId = some v ∧
    (updateProgress m taskId v today true).requests
      = [ApiRequest.postProgress taskId today v] ∧
    (updateProgress m taskId v today true).toasts = [Toast.success "Progress updated"] ∧
    (updateProgress m taskId v today false).todayProgress = m ∧
    (updateProgress m taskId v today false).requests
      = [ApiRequest.postProgress taskId today v] ∧
    (updateProgress m taskId v today false).toasts
      = [Toast.error "Failed to update progress"] := by
  refine ⟨rfl, ?_, rfl, rfl, rfl, rfl, rfl⟩
  show objGet (objSet m taskId v) taskId = some v
  exact objGet_objSet_self m taskId v

/-- Today's value extracted from one task's fetched history
(`response.data.find(entry => entry.date === today)`), with the `catch`
fallback: a failed fetch (`none`) and an absent entry both yield 0. -/
def todayValueOf (today : Int) (fetched : Option (List ProgressEntry)) : Int :=
  match fetched with
  | some history =>
    match history.find? (fun e => e.date == today) with
    | some entry => entry.progress_value
    | none => 0
  | none => 0

/-- `LifeTracker.fetchTodayProgress` (Journal.jsx pack, lines 378-400),
per-task results: one `{taskId, progress}` pair per task, in task-list
order, from each task's own history fetch (`fetchRes`). -/
def fetchTodayProgressResults (tasks : List LifeTask) (today : Int)
    (fetchRes : String → Option (List ProgressEntry)) : List (String × Int) :=
  tasks.map (fun task => (task.id, todayValueOf today (fetchRes task.id)))

/-- The requests issued by `fetchTodayProgress`: one progress-history GET
per task. -/
def fetchTodayProgressRequests (tasks : List LifeTask) : List ApiRequest :=
  tasks.map (fun task => ApiRequest.getProgressEntries task.id)

/-- `LifeTracker.fetchTodayProgress`, final state: the settled results are
folded into the `progressMap` object (`results.forEach(result => {
progressMap[result.taskId] = result.progress })`) which becomes the new
`todayProgress`. -/
def fetchTodayProgressMap (tasks : List LifeTask) (today : Int)
    (fetchRes : String → Option (List ProgressEntry)) : List (String × Int) :=
  (fetchTodayProgressResults tasks today fetchRes).foldl
    (fun progressMap r => objSet progressMap r.1 r.2) []

/-- Folding assignments whose keys avoid `k` does not change reads of `k`. -/
theorem foldl_objSet_of_not_mem (pairs : List (String × Int)) :
    ∀ (m : List (String × Int)) (k : String), k ∉ pairs.map Prod.fst →
      objGet (pairs.foldl (fun acc p => objSet acc p.1 p.2) m) k = objGet m k := by
  induction pairs with
  | nil => intro m k _; rfl
  | cons p ps ih =>
    intro m k hk
    rw [List.map_cons] at hk
    have hk1 : k ≠ p.1 := fun h => hk (by rw [h]; exact List.mem_cons_self _ _)
    have hk2 : k ∉ ps.map Prod.fst := fun h => hk (List.mem_cons_of_mem _ h)
    rw [List.foldl_cons, ih (objSet m p.1 p.2) k hk2, objGet_objSet_ne m p.1 k p.2 hk1]

/-- Folding assignments with pairwise-distinct keys: reading back a key that
was assigned yields its assigned value. -/
theorem foldl_objSet_of_mem (pairs : List (String × Int)) :
    ∀ (m : List (String × Int)) (k : String) (v : Int),
      (pairs.map Prod.fst).Nodup → (k, v) ∈ pairs →
      objGet (pairs.foldl (fun acc p => objSet acc p.1 p.2) m) k = some v := by
  induction pairs with
  | nil => intro m k v _ hmem; cases hmem
  | cons p ps ih =>
    intro m k v hnodup hmem
    rw [List.map_cons] at hnodup
    rw [List.foldl_cons]
    rcases List.mem_cons.mp hmem with rfl | hmem2
    · have hknotin : k ∉ ps.map Prod.fst := by
        have := List.nodup_cons.mp hnodup
        exact this.1
      rw [foldl_objSet_of_not_mem ps (objSet m k v) k hknotin]
      exact objGet_objSet_self m k v
    · exact ih (objSet m p.1 p.2) k v (List.nodup_cons.mp hnodup).2 hmem2

/-- C8. The today's-progress aggregation issues one progress-history fetch
per task (the request list is the task list's image), settles every task
before the single state update, and the resulting task-id→value map covers
every task: a task reads back today's recorded `progress_value` when its
history holds an entry for today (dates unique), reads 0 when its history
has no entry for today, and reads 0 when its own fetch failed; moreover a
task's value depends only on its own fetch result, so one task's failure
does not affect the others. -/
theorem todayProgress_aggregation (tasks : List LifeTask) (today : Int)
    (f g : String → Option (List ProgressEntry))
    (hnodup : (tasks.map (·.id)).Nodup) :
    (fetchTodayProgressRequests tasks).length = tasks.length ∧
    (∀ t ∈ tasks, ApiRequest.getProgressEntries t.id ∈ fetchTodayProgressRequests tasks) ∧
    (∀ t ∈ tasks, objGet (fetchTodayProgressMap tasks today f) t.id
        = some (todayValueOf today (f t.id))) ∧
    (∀ t ∈ tasks, f t.id = none →
      objGet (fetchTodayProgressMap tasks today f) t.id = some 0) ∧
    (∀ t ∈ tasks, ∀ history, f t.id = some history →
      (∀ e ∈ history, e.date ≠ today) →
      objGet (fetchTodayProgressMap tasks today f) t.id = some 0) ∧
    (∀ t ∈ tasks, ∀ history, f t.id = some history →
      ∀ e ∈ history, e.date = today → (history.map (·.date)).Nodup →
      objGet (fetchTodayProgressMap tasks today f) t.id = some e.progress_value) ∧
    (∀ t ∈ tasks, f t.id = g t.id →
      objGet (fetchTodayProgressMap tasks today f) t.id
        = objGet (fetchTodayProgressMap tasks today g) t.id) := by
  have hkeys : ∀ h : String → Option (List ProgressEntry),
      (fetchTodayProgressResults tasks today h).map Prod.fst = tasks.map (·.id) := by
    intro h
    rw [fetchTodayProgressResults, List.map_map]
    rfl
  have hlookup : ∀ (h : String → Option (List ProgressEntry)), ∀ t ∈ tasks,
      objGet (fetchTodayProgressMap tasks today h) t.id
        = some (todayValueOf today (h t.id)) := by
    intro h t ht
    rw [fetchTodayProgressMap]
    apply foldl_objSet_of_mem
    · rw [hkeys]
      exact hnodup
    · rw [fetchTodayProgressResults]
      exact List.mem_map.mpr ⟨t, ht, rfl⟩
  refine ⟨?_, ?_, hlookup f, ?_, ?_, ?_, ?_⟩
  · rw [fetchTodayProgressRequests, List.length_map]
  · intro t ht
    rw [fetchTodayProgressRequests]
    exact List.mem_map.mpr ⟨t, ht, rfl⟩
  · intro t ht hfail
    rw [hlookup f t ht, hfail]
    rfl
  · intro t ht history hh habsent
    rw [hlookup f t ht, hh]
    have hfind : history.find? (fun e => e.date == today) = none := by
      rw [List.find?_eq_none]
      intro e he
      simpa using habsent e he
    rw [todayValueOf, hfind]
  · intro t ht history hh e he hedate hhn
    rw [hlookup f t ht, hh]
    cases hfind : history.find? (fun e2 => e2.date == today) with
    | none =>
      exfalso
      have := List.find?_eq_none.mp hfind e he
      simp [hedate] at this
    | some entry =>
      have hmem : entry ∈ history := List.mem_of_find?_eq_some hfind
      have hpe := List.find?_some hfind
      have hdateeq : entry.date = e.date := by
        have h1 : entry.date = today := by simpa using hpe
        rw [h1, hedate]
      have hee : entry = e := List.inj_on_of_nodup_map hhn hmem he hdateeq
      rw [todayValueOf, hfind, hee]
  · intro t ht hfg
    rw [hlookup f t ht, hlookup g t ht, hfg]

/-- Concrete task list for exercising the aggregation: two tasks. -/
def sampleTasks : List LifeTask :=
  [⟨"a", "Read", "", "General", 50⟩, ⟨"b", "Run", "", "Health", 10⟩]

/-- Concrete per-task fetch outcomes: task `a` has an entry of 30 for day 5,
task `b`'s fetch fails. -/
def sampleFetch : String → Option (List ProgressEntry) :=
  fun id => if id = "a" then some [⟨"a", 5, 30⟩] else none

/-- Witness for C8 at the concrete two-task instance. -/
theorem todayProgress_aggregation_witness :
    (sampleTasks.map (·.id)).Nodup ∧
    ((fetchTodayProgressRequests sampleTasks).length = sampleTasks.length ∧
     (∀ t ∈ sampleTasks,
       ApiRequest.getProgressEntries t.id ∈ fetchTodayProgressRequests sampleTasks) ∧
     (∀ t ∈ sampleTasks, objGet (fetchTodayProgressMap sampleTasks 5 sampleFetch) t.id
         = some (todayValueOf 5 (sampleFetch t.id))) ∧
     (∀ t ∈ sampleTasks, sampleFetch t.id = none →
       objGet (fetchTodayProgressMap sampleTasks 5 sampleFetch) t.id = some 0) ∧
     (∀ t ∈ sampleTasks, ∀ history, sampleFetch t.id = some history →
       (∀ e ∈ history, e.date ≠ 5) →
       objGet (fetchTodayProgressMap sampleTasks 5 sampleFetch) t.id = some 0) ∧
     (∀ t ∈ sampleTasks, ∀ history, sampleFetch t.id = some history →
       ∀ e ∈ history, e.date = 5 → (history.map (·.date)).Nodup →
       objGet (fetchTodayProgressMap sampleTasks 5 sampleFetch) t.id
         = some e.progress_value) ∧
     (∀ t ∈ sampleTasks, sampleFetch t.id = sampleFetch t.id →
       objGet (fetchTodayProgressMap sampleTasks 5 sampleFetch) t.id
         = objGet (fetchTodayProgressMap sampleTasks 5 sampleFetch) t.id)) :=
  ⟨by decide, todayProgress_aggregation sampleTasks 5 sampleFetch sampleFetch (by decide)⟩

/-- The per-task progress percentage computed in the Life Tracker render:
`(progress / task.target_value) * 100` (Journal.jsx pack, line 584). -/
def progressPercentage (progress target_value : ℚ) : ℚ :=
  progress / target_value * 100

/-- The rendered bar width: `Math.min(progressPercentage, 100)` per cent
(Journal.jsx pack, line 631). -/
def progressBarWidth (progress target_value : ℚ) : ℚ :=
  min (progressPercentage progress target_value) 100

/-- C3. For every task with target value `t > 0` and today-progress value
`p ≥ 0`, the rendered bar percentage is `min(100, 100·p/t)`; in particular
it is 0 when `p = 0` and 100 when `p ≥ t`. -/
theorem progressBar_clamped (p t : ℚ) (ht : 0 < t) (hp : 0 ≤ p) :
    progressBarWidth p t = min 100 (100 * p / t) ∧
    (p = 0 → progressBarWidth p t = 0) ∧
    (t ≤ p → progressBarWidth p t = 100) := by
  have hpp : progressPercentage p t = 100 * p / t := by
    rw [progressPercentage]
    ring
  refine ⟨?_, ?_, ?_⟩
  · rw [progressBarWidth, hpp, min_comm]
  · intro hp0
    rw [progressBarWidth, hpp, hp0]
    norm_num
  · intro htp
    rw [progressBarWidth, hpp]
    have hdiv : (1 : ℚ) ≤ p / t := (one_le_div ht).mpr htp
    have h100 : (100 : ℚ) ≤ 100 * p / t := by
      rw [mul_div_assoc]
      nlinarith
    exact min_eq_right h100

/-- Witness for C3 at the specification's example: progress 30 of target 50
renders a 60% bar. -/
theorem progressBar_clamped_witness :
    (0 : ℚ) < 50 ∧ (0 : ℚ) ≤ 30 ∧
    (progressBarWidth 30 50 = min 100 (100 * 30 / 50) ∧
     ((30 : ℚ) = 0 → progressBarWidth 30 50 = 0) ∧
     ((50 : ℚ) ≤ 30 → progressBarWidth 30 50 = 100)) ∧
    progressBarWidth 30 50 = 60 :=
  ⟨by norm_num, by norm_num, progressBar_clamped 30 50 (by norm_num) (by norm_num),
   by norm_num [progressBarWidth, progressPercentage]⟩

/- ----------------------------------------------------------------
Journal (first component in Journal.jsx's file pack)
---------------------------------------------------------------- -/

/-- The Journal view's React state: selected date (opaque `yyyy-MM-dd` key),
editor content, editing flag, full entry list, loading flag, and whether an
entry exists for the selected date. -/
structure JournalState where
  selectedDate : String
  journalContent : String
  isEditing : Bool
  entries : List JournalEntry
  loading : Bool
  hasEntry : Bool
deriving Repr, DecidableEq

/-- The result of running one Journal handler: the state afterwards, the
requests it issued, and the notifications it raised. -/
structure JournalOutcome where
  state : JournalState
  requests : List ApiRequest
  toasts : List Toast
deriving Repr, DecidableEq

/-- Outcome of the single-entry GET: a 2xx response carrying the body
(`response.data`, possibly null), or an HTTP error with its status. -/
inductive FetchEntryResult where
  | ok (data : Option JournalEntry)
  | httpError (status : Nat)
deriving Repr, DecidableEq

/-- `Journal.fetchJournalEntries` (Journal.jsx lines 33-41): refresh the
full entry list; on failure keep the old list and raise an error toast. -/
def fetchJournalEntries (s : JournalState) (result : Option (List JournalEntry)) :
    JournalOutcome :=
  match result with
  | some data => ⟨{ s with entries := data }, [ApiRequest.getEntries], []⟩
  | none => ⟨s, [ApiRequest.getEntries], [Toast.error "Failed to load journal entries"]⟩

/-- `Journal.fetchJournalEntryByDate` (Journal.jsx lines 43-70): on a
response with an entry, show it in viewing mode; on a null body or a 404,
initialize empty editing state; on any other error, report it and leave the
view state alone (`loading` is reset by the `finally`). -/
def fetchJournalEntryByDate (s : JournalState) (date : String)
    (result : FetchEntryResult) : JournalOutcome :=
  match result with
  | FetchEntryResult.ok (some entry) =>
    ⟨{ s with journalContent := entry.content, hasEntry := true, isEditing := false, loading := false },
     [ApiRequest.getEntryByDate date], []⟩
  | FetchEntryResult.ok none =>
    ⟨{ s with journalContent := "", hasEntry := false, isEditing := true, loading := false },
     [ApiRequest.getEntryByDate date], []⟩
  | FetchEntryResult.httpError status =>
    if status = 404 then
      ⟨{ s with journalContent := "", hasEntry := false, isEditing := true, loading := false },
       [ApiRequest.getEntryByDate date], []⟩
    else
      ⟨{ s with loading := false },
       [ApiRequest.getEntryByDate date], [Toast.error "Failed to load journal entry"]⟩

/-- JavaScript whitespace characters stripped by `String.prototype.trim`
(the ASCII ones; the JS set also has exotic Unicode spaces, which do not
occur in this client). -/
def isJsWhitespace (c : Char) : Bool :=
  c == ' ' || c == '\t' || c == '\n' || c == '\r' || c == '\x0b' || c == '\x0c'

/-- JavaScript `str.trim()`: drop leading and trailing whitespace. Defined
by structural recursion over the character list so that concrete instances
evaluate. -/
def jsTrim (s : String) : String :=
  String.mk (((s.data.dropWhile isJsWhitespace).reverse.dropWhile isJsWhitespace).reverse)

/-- `Journal.saveJournalEntry` (Journal.jsx lines 72-104): reject blank
content before any request; otherwise PUT when an entry exists, POST when
not; on success mark the entry present, leave editing mode and refresh the
entry list; on failure report and change nothing else. -/
def saveJournalEntry (s : JournalState) (saveOk : Bool)
    (listResult : Option (List JournalEntry)) : JournalOutcome :=
  if jsTrim s.journalContent = "" then
    ⟨s, [], [Toast.error "Journal entry cannot be empty"]⟩
  else
    let req := if s.hasEntry then ApiRequest.putEntry s.selectedDate s.journalContent
               else ApiRequest.postEntry s.selectedDate s.journalContent
    if saveOk then
      let toast1 := if s.hasEntry then Toast.success "Journal entry updated successfully"
                    else Toast.success "Journal entry created successfully"
      let refreshed := fetchJournalEntries
        { s with hasEntry := true, isEditing := false } listResult
      ⟨{ refreshed.state with loading := false },
       req :: refreshed.requests, toast1 :: refreshed.toasts⟩
    else
      ⟨{ s with loading := false }, [req], [Toast.error "Failed to save journal entry"]⟩

/-- `Journal.deleteJournalEntry` (Journal.jsx lines 106-128): bail out at
once when no entry exists, then ask for confirmation; on a confirmed,
successful DELETE clear the content, mark no entry, return to editing and
refresh the list; on failure only report. -/
def deleteJournalEntry (s : JournalState) (confirmed : Bool) (deleteOk : Bool)
    (listResult : Option (List JournalEntry)) : JournalOutcome :=
  if !s.hasEntry then
    ⟨s, [], []⟩
  else if !confirmed then
    ⟨s, [], []⟩
  else if deleteOk then
    let refreshed := fetchJournalEntries
      { s with journalContent := "", hasEntry := false, isEditing := true } listResult
    ⟨{ refreshed.state with loading := false },
     ApiRequest.deleteEntry s.selectedDate :: refreshed.requests,
     Toast.success "Journal entry deleted successfully" :: refreshed.toasts⟩
  else
    ⟨{ s with loading := false },
     [ApiRequest.deleteEntry s.selectedDate], [Toast.error "Failed to delete journal entry"]⟩

/-- C4. Saving content that trims to empty is rejected client-side: no
request of any kind (in particular neither POST nor PUT) is issued, an
error toast is surfaced, and the whole journal state — content, `hasEntry`,
`isEditing`, entries, everything — is unchanged. -/
theorem save_empty_rejected (s : JournalState) (saveOk : Bool)
    (listResult : Option (List JournalEntry))
    (hempty : jsTrim s.journalContent = "") :
    saveJournalEntry s saveOk listResult
      = ⟨s, [], [Toast.error "Journal entry cannot be empty"]⟩ := by
  rw [saveJournalEntry, if_pos hempty]

/-- Witness for C4: whitespace-only content, would-be-successful request. -/
theorem save_empty_rejected_witness :
    jsTrim (JournalState.mk "2024-01-05" "   " true [] false false).journalContent = "" ∧
    saveJournalEntry (JournalState.mk "2024-01-05" "   " true [] false false) true none
      = ⟨JournalState.mk "2024-01-05" "   " true [] false false, [],
         [Toast.error "Journal entry cannot be empty"]⟩ :=
  ⟨by decide, save_empty_rejected _ true none (by decide)⟩

/-- C10. Invoking deletion when no entry exists for the selected date is a
no-op: it returns before the confirmation prompt, issues no request, raises
no toast, and leaves the whole journal state (content, `hasEntry`,
`isEditing`, entries) unchanged. -/
theorem delete_noop_without_entry (s : JournalState) (confirmed deleteOk : Bool)
    (listResult : Option (List JournalEntry)) (hno : s.hasEntry = false) :
    deleteJournalEntry s confirmed deleteOk listResult = ⟨s, [], []⟩ := by
  rw [deleteJournalEntry, hno]
  rfl

/-- Witness for C10: a confirmed, would-succeed delete with no entry. -/
theorem delete_noop_without_entry_witness :
    (JournalState.mk "2024-01-05" "draft" true [] false false).hasEntry = false ∧
    deleteJournalEntry (JournalState.mk "2024-01-05" "draft" true [] false false)
        true true (some [])
      = ⟨JournalState.mk "2024-01-05" "draft" true [] false false, [], []⟩ :=
  ⟨by decide, delete_noop_without_entry _ true true (some []) (by decide)⟩

/-- C5. Fetching the selected date's entry: a success carrying an entry
yields viewing mode (`isEditing = false`) with that entry's content and
`hasEntry = true`; a not-found (404) yields editing mode with empty content
and `hasEntry = false`; any other error leaves content, `hasEntry`,
`isEditing` and the entry list unchanged and surfaces an error toast. -/
theorem fetchByDate_transitions (s : JournalState) (date : String) :
    (∀ entry : JournalEntry,
      fetchJournalEntryByDate s date (FetchEntryResult.ok (some entry))
        = ⟨{ s with journalContent := entry.content, hasEntry := true, isEditing := false, loading := false },
           [ApiRequest.getEntryByDate date], []⟩) ∧
    (fetchJournalEntryByDate s date (FetchEntryResult.httpError 404)
      = ⟨{ s with journalContent := "", hasEntry := false, isEditing := true, loading := false },
         [ApiRequest.getEntryByDate date], []⟩) ∧
    (∀ status : Nat, status ≠ 404 →
      (fetchJournalEntryByDate s date (FetchEntryResult.httpError status)).state.journalContent
        = s.journalContent ∧
      (fetchJournalEntryByDate s date (FetchEntryResult.httpError status)).state.hasEntry
        = s.hasEntry ∧
      (fetchJournalEntryByDate s date (FetchEntryResult.httpError status)).state.isEditing
        = s.isEditing ∧
      (fetchJournalEntryByDate s date (FetchEntryResult.httpError status)).state.entries
        = s.entries ∧
      (fetchJournalEntryByDate s date (FetchEntryResult.httpError status)).toasts
        = [Toast.error "Failed to load journal entry"]) := by
  refine ⟨fun entry => rfl, rfl, ?_⟩
  intro status hstatus
  have h : fetchJournalEntryByDate s date (FetchEntryResult.httpError status)
      = ⟨{ s with loading := false },
         [ApiRequest.getEntryByDate date], [Toast.error "Failed to load journal entry"]⟩ := by
    rw [fetchJournalEntryByDate]
    exact if_neg hstatus
  rw [h]
  exact ⟨rfl, rfl, rfl, rfl, rfl⟩

/-- Witness for C5 at a concrete state, entry, and a 500 error. -/
theorem fetchByDate_transitions_witness :
    (∀ entry : JournalEntry,
      fetchJournalEntryByDate (JournalState.mk "2024-01-05" "old" false [] false true)
          "2024-01-05" (FetchEntryResult.ok (some entry))
        = ⟨{ JournalState.mk "2024-01-05" "old" false [] false true with
              journalContent := entry.content, hasEntry := true, isEditing := false, loading := false },
           [ApiRequest.getEntryByDate "2024-01-05"], []⟩) ∧
    (fetchJournalEntryByDate (JournalState.mk "2024-01-05" "old" false [] false true)
        "2024-01-05" (FetchEntryResult.httpError 404)
      = ⟨{ JournalState.mk "2024-01-05" "old" false [] false true with
            journalContent := "", hasEntry := false, isEditing := true, loading := false },
         [ApiRequest.getEntryByDate "2024-01-05"], []⟩) ∧
    (∀ status : Nat, status ≠ 404 →
      (fetchJournalEntryByDate (JournalState.mk "2024-01-05" "old" false [] false true)
          "2024-01-05" (FetchEntryResult.httpError status)).state.journalContent = "old" ∧
      (fetchJournalEntryByDate (JournalState.mk "2024-01-05" "old" false [] false true)
          "2024-01-05" (FetchEntryResult.httpError status)).state.hasEntry = true ∧
      (fetchJournalEntryByDate (JournalState.mk "2024-01-05" "old" false [] false true)
          "2024-01-05" (FetchEntryResult.httpError status)).state.isEditing = false ∧
      (fetchJournalEntryByDate (JournalState.mk "2024-01-05" "old" false [] false true)
          "2024-01-05" (FetchEntryResult.httpError status)).state.entries = [] ∧
      (fetchJournalEntryByDate (JournalState.mk "2024-01-05" "old" false [] false true)
          "2024-01-05" (FetchEntryResult.httpError status)).toasts
        = [Toast.error "Failed to load journal entry"]) :=
  fetchByDate_transitions (JournalState.mk "2024-01-05" "old" false [] false true) "2024-01-05"

/-- C6. Saving non-empty trimmed content issues exactly one write — a POST
of the date and content when no entry exists, a PUT of the content to the
date's endpoint when one does — followed by the entry-list refresh; on
success the view returns to viewing state (`isEditing = false`,
`hasEntry = true`) with the refreshed list, and the date and content are
kept, so a second save for the same date always issues a PUT (update), not
a POST (create): no duplicate is created. -/
theorem save_create_vs_update (s : JournalState) (listResult : Option (List JournalEntry))
    (hne : jsTrim s.journalContent ≠ "") :
    ((s.hasEntry = false →
      (saveJournalEntry s true listResult).requests
        = [ApiRequest.postEntry s.selectedDate s.journalContent, ApiRequest.getEntries]) ∧
     (s.hasEntry = true →
      (saveJournalEntry s true listResult).requests
        = [ApiRequest.putEntry s.selectedDate s.journalContent, ApiRequest.getEntries])) ∧
    (saveJournalEntry s true listResult).state.isEditing = false ∧
    (saveJournalEntry s true listResult).state.hasEntry = true ∧
    (∀ l, listResult = some l → (saveJournalEntry s true listResult).state.entries = l) ∧
    (saveJournalEntry s true listResult).state.selectedDate = s.selectedDate ∧
    (saveJournalEntry s true listResult).state.journalContent = s.journalContent ∧
    (∀ (saveOk2 : Bool) (listResult2 : Option (List JournalEntry)),
      (saveJournalEntry (saveJournalEntry s true listResult).state saveOk2 listResult2).requests.head?
        = some (ApiRequest.putEntry s.selectedDate s.journalContent)) := by
  rcases listResult with _ | l <;>
    refine ⟨⟨?_, ?_⟩, ?_, ?_, ?_, ?_, ?_, ?_⟩ <;>
      simp [saveJournalEntry, fetchJournalEntries, hne]

/-- Witness for C6: first save on a date with no entry (a POST), with the
refreshed list carrying the created entry. -/
theorem save_create_vs_update_witness :
    jsTrim (JournalState.mk "2024-01-05" "hello" true [] false false).journalContent ≠ "" ∧
    (((JournalState.mk "2024-01-05" "hello" true [] false false).hasEntry = false →
      (saveJournalEntry (JournalState.mk "2024-01-05" "hello" true [] false false) true
          (some [JournalEntry.mk "e1" "2024-01-05" "hello"])).requests
        = [ApiRequest.postEntry "2024-01-05" "hello", ApiRequest.getEntries]) ∧
     ((JournalState.mk "2024-01-05" "hello" true [] false false).hasEntry = true →
      (saveJournalEntry (JournalState.mk "2024-01-05" "hello" true [] false false) true
          (some [JournalEntry.mk "e1" "2024-01-05" "hello"])).requests
        = [ApiRequest.putEntry "2024-01-05" "hello", ApiRequest.getEntries])) ∧
    (saveJournalEntry (JournalState.mk "2024-01-05" "hello" true [] false false) true
        (some [JournalEntry.mk "e1" "2024-01-05" "hello"])).state.isEditing = false ∧
    (saveJournalEntry (JournalState.mk "2024-01-05" "hello" true [] false false) true
        (some [JournalEntry.mk "e1" "2024-01-05" "hello"])).state.hasEntry = true ∧
    (∀ l, (some [JournalEntry.mk "e1" "2024-01-05" "hello"]) = some l →
      (saveJournalEntry (JournalState.mk "2024-01-05" "hello" true [] false false) true
          (some [JournalEntry.mk "e1" "2024-01-05" "hello"])).state.entries = l) ∧
    (saveJournalEntry (JournalState.mk "2024-01-05" "hello" true [] false false) true
        (some [JournalEntry.mk "e1" "2024-01-05" "hello"])).state.selectedDate = "2024-01-05" ∧
    (saveJournalEntry (JournalState.mk "2024-01-05" "hello" true [] false false) true
        (some [JournalEntry.mk "e1" "2024-01-05" "hello"])).state.journalContent = "hello" ∧
    (∀ (saveOk2 : Bool) (listResult2 : Option (List JournalEntry)),
      (saveJournalEntry
          (saveJournalEntry (JournalState.mk "2024-01-05" "hello" true [] false false) true
            (some [JournalEntry.mk "e1" "2024-01-05" "hello"])).state
          saveOk2 listResult2).requests.head?
        = some (ApiRequest.putEntry "2024-01-05" "hello")) :=
  ⟨by decide,
   save_create_vs_update (JournalState.mk "2024-01-05" "hello" true [] false false)
     (some [JournalEntry.mk "e1" "2024-01-05" "hello"]) (by decide)⟩
